import Mathlib

/-!
Shallow embedding of `src/market.py`: the stock/price reconciliation core of
the marketplace sync script, together with an effect-trace model of its
orchestrator `main`.

Modelling conventions:
* Python dict rows become Lean structures; the inventory row keys
  `"Код"` / `"Количество"` / `"Цена"` become the fields `code` / `quantity` /
  `price` of `WatchRecord`.
* The timestamp `datetime.datetime.utcnow()...` computed once per
  `create_stocks` call is nondeterministic I/O; it is passed in as the
  parameter `date` and stamped on every entry, as in the source.
* Python's `int(...)` on a string (which raises `ValueError` on unparseable
  input) is embedded as `pyInt : String → Option Int`; failure of a call that
  performs such a conversion is an `Option.none` result.
* `create_stocks` mutates its `offer_ids` argument (`offer_ids.remove(...)`);
  the embedding returns the post-state of that list as the second component
  of its result.
* The HTTP-transport functions (`update_stocks`, `update_price`,
  `get_product_list`/`get_offer_ids`) are external I/O; the offer-id lists a
  run fetches are parameters, and the pushes a run performs are recorded as
  an `Event` trace.
-/

namespace Market

/-- One row of the inventory snapshot (`watch_remnants`): the values at the
keys `"Код"`, `"Количество"` and `"Цена"`. -/
structure WatchRecord where
  code : String
  quantity : String
  price : String
deriving Repr, DecidableEq

/-- One element of the `"items"` list of a stock-update payload. -/
structure StockItem where
  count : Int
  type : String
  updatedAt : String
deriving Repr, DecidableEq, Inhabited

/-- One stock-update payload entry produced by `create_stocks`. -/
structure StockEntry where
  sku : String
  warehouseId : String
  items : List StockItem
deriving Repr, DecidableEq

/-- The `"price"` sub-object of a price-update payload entry. -/
structure PriceBody where
  value : Int
  currencyId : String
deriving Repr, DecidableEq

/-- One price-update payload entry produced by `create_prices`. -/
structure PriceEntry where
  id : String
  price : PriceBody
deriving Repr, DecidableEq

/-- Start code points of the runs of ten consecutive Unicode decimal digits
(category Nd, digit values 0 through 9), which CPython's `int(...)` accepts
as digits; generated from the Unicode character database. The first entry
is ASCII "0". -/
def pyDigitStarts : List Nat :=
  [48, 1632, 1776, 1984, 2406, 2534, 2662, 2790, 2918, 3046, 3174, 3302,
   3430, 3558, 3664, 3792, 3872, 4160, 4240, 6112, 6160, 6470, 6608, 6784,
   6800, 6992, 7088, 7232, 7248, 42528, 43216, 43264, 43472, 43504, 43600,
   44016, 65296, 66720, 68912, 69734, 69872, 69942, 70096, 70384, 70736,
   70864, 71248, 71360, 71472, 71904, 72016, 72784, 73040, 73120, 92768,
   92864, 93008, 120782, 120792, 120802, 120812, 120822, 123200, 123632,
   125264, 130032]

/-- Decimal digit value of a character, when CPython's `int(...)` treats it
as a digit (any Unicode decimal digit, not only ASCII). -/
def pyDigitVal (c : Char) : Option Nat :=
  (pyDigitStarts.find? (fun s => s ≤ c.toNat && c.toNat ≤ s + 9)).map
    (fun s => c.toNat - s)

/-- Code points CPython's `int(...)` strips as whitespace around its
argument (the `Py_UNICODE_ISSPACE` set). -/
def pyWhitespaceCodes : List Nat :=
  [9, 10, 11, 12, 13, 28, 29, 30, 31, 32, 133, 160, 5760, 8192, 8193, 8194,
   8195, 8196, 8197, 8198, 8199, 8200, 8201, 8202, 8232, 8233, 8239, 8287,
   12288]

/-- Whether `int(...)` strips this character as whitespace. -/
def pyWhitespace (c : Char) : Bool :=
  pyWhitespaceCodes.contains c.toNat

/-- Strips leading and trailing whitespace from a character list. -/
def trimChars (cs : List Char) : List Char :=
  ((cs.dropWhile pyWhitespace).reverse.dropWhile pyWhitespace).reverse

/-- Digit-run accumulator, entered after at least one digit has been read:
further digits extend the value, and a single underscore may stand between
two digits (PEP 515); a trailing, doubled or otherwise misplaced underscore
and any non-digit character reject. -/
def parseDigitsU : List Char → Nat → Option Nat
  | [], acc => some acc
  | '_' :: cs, acc =>
    match cs with
    | [] => none
    | c :: cs' =>
      match pyDigitVal c with
      | some d => parseDigitsU cs' (acc * 10 + d)
      | none => none
  | c :: cs, acc =>
    match pyDigitVal c with
    | some d => parseDigitsU cs (acc * 10 + d)
    | none => none

/-- Parses a digit run as `int(...)` does in base 10: it must begin with a
digit (not an underscore) and may contain single underscores between
digits. -/
def parseDigits (cs : List Char) : Option Nat :=
  match cs with
  | [] => none
  | c :: cs' =>
    match pyDigitVal c with
    | some d => parseDigitsU cs' d
    | none => none

/-- Embedding of Python's built-in `int(s)` on a string in base 10:
surrounding whitespace (Python's whitespace set) is ignored, an optional
single leading sign is allowed, and the rest must be a nonempty run of
Unicode decimal digits, possibly with single underscores between digits
(PEP 515); otherwise a `ValueError` is raised (`none`). -/
def pyInt (s : String) : Option Int :=
  match trimChars s.data with
  | [] => none
  | c :: cs =>
    if c = '-' then (parseDigits cs).map (fun n => -(n : Int))
    else if c = '+' then (parseDigits cs).map (fun n => (n : Int))
    else (parseDigits (c :: cs)).map (fun n => (n : Int))

/-- The quantity branch of `create_stocks` (market.py lines 197-203): the
count string `">10"` yields 100, `"1"` yields 0, and anything else is handed
to `int(...)`, whose `ValueError` aborts the call (`none`). -/
def normalizeQuantity (s : String) : Option Int :=
  if s = ">10" then some 100
  else if s = "1" then some 0
  else pyInt s

/-- Builds the stock-update payload dict appended by `create_stocks`. -/
def mkStockEntry (sku wh date : String) (count : Int) : StockEntry :=
  { sku := sku, warehouseId := wh,
    items := [{ count := count, type := "FIT", updatedAt := date }] }

/-- The first loop of `create_stocks` (market.py lines 195-217): walks the
inventory rows; a row whose code is in the working offer-id list has its
quantity normalized, an entry appended, and its code removed
(`offer_ids.remove`); other rows are skipped. Returns the appended entries
together with the final state of the (mutated) offer-id list, or `none` when
`int(...)` raises on a matched row. -/
def createStocksLoop (date wh : String) :
    List WatchRecord → List String → Option (List StockEntry × List String)
  | [], offerIds => some ([], offerIds)
  | w :: ws, offerIds =>
    if w.code ∈ offerIds then
      match normalizeQuantity w.quantity with
      | none => none
      | some stock =>
        match createStocksLoop date wh ws (offerIds.erase w.code) with
        | none => none
        | some (es, rem) => some (mkStockEntry w.code wh date stock :: es, rem)
    else createStocksLoop date wh ws offerIds

/-- Characterization of the matched part of the first `create_stocks` loop:
the entries emitted for inventory rows that find their code in the working
offer-id list, in inventory input order, each carrying its normalized
count. -/
def stockMatchedPart (date wh : String) :
    List WatchRecord → List String → Option (List StockEntry)
  | [], _ => some []
  | w :: ws, offerIds =>
    if w.code ∈ offerIds then
      match normalizeQuantity w.quantity with
      | none => none
      | some stock =>
        match stockMatchedPart date wh ws (offerIds.erase w.code) with
        | none => none
        | some es => some (mkStockEntry w.code wh date stock :: es)
    else stockMatchedPart date wh ws offerIds

/-- Characterization of the offer ids left in the working list after the
first `create_stocks` loop: those never matched by an inventory row. -/
def unmatchedIds : List WatchRecord → List String → List String
  | [], offerIds => offerIds
  | w :: ws, offerIds =>
    if w.code ∈ offerIds then unmatchedIds ws (offerIds.erase w.code)
    else unmatchedIds ws offerIds

/-- Embedding of `create_stocks` (market.py lines 168-233): the first loop
over `watch_remnants`, then the second loop appending a zero-count entry for
every offer id left in the mutated working list. The second component of the
result is the post-state of the caller's `offer_ids` list. -/
def create_stocks (watch_remnants : List WatchRecord) (offer_ids : List String)
    (warehouse_id date : String) : Option (List StockEntry × List String) :=
  match createStocksLoop date warehouse_id watch_remnants offer_ids with
  | none => none
  | some (es, rem) =>
    some (es ++ rem.map (fun c => mkStockEntry c warehouse_id date 0), rem)

/-- Builds the price-update payload dict appended by `create_prices`.
`price_conversion` (imported from `seller`, outside this file's source) is
the parameter `pc`; `int(...)` applied to its integer-valued result is the
identity, so `pc` carries the composite `int(price_conversion(...))`. -/
def mkPriceEntry (pc : String → Int) (w : WatchRecord) : PriceEntry :=
  { id := w.code, price := { value := pc w.price, currencyId := "RUR" } }

/-- Embedding of `create_prices` (market.py lines 236-273): one entry per
inventory row whose code is in `offer_ids` (which is only read, never
mutated), in input order. `pc` is the external price conversion; modelled
from the spec: `convertPriceText(raw: string) → integer`, the external
numeric normalization consumed from the `seller` module, which is not part
of this source file. -/
def create_prices (pc : String → Int) :
    List WatchRecord → List String → List PriceEntry
  | [], _ => []
  | w :: ws, offer_ids =>
    if w.code ∈ offer_ids then
      mkPriceEntry pc w :: create_prices pc ws offer_ids
    else create_prices pc ws offer_ids

/-- Fuel-driven worker for `divide`; the fuel is an upper bound on the input
length, so the recursion is structural and the function evaluates by
reduction. -/
def divideFuel : Nat → List α → Nat → List (List α)
  | _, [], _ => []
  | 0, _ :: _, _ => []
  | fuel + 1, x :: xs, n => ((x :: xs).take n) :: divideFuel fuel (xs.drop (n - 1)) n

/-- Modelled from the spec: `divide` from the external `seller` module (not
part of this source file), the Batcher of §4.4 — splits an ordered sequence
into consecutive chunks of length `n` (the last possibly shorter), such that
concatenating the chunks reproduces the input. The call sites only use
`n = 500` and `n = 2000`; the `n = 0` case (which the spec says fails with
`InvalidArgument`) is given the harmless value of all-empty chunks. -/
def divide (xs : List α) (n : Nat) : List (List α) :=
  divideFuel xs.length xs n

/-- One observable API call performed by a sync run: a `update_stocks` PUT or
an `update_price` POST, with the campaign it targets and the batch it
carries. -/
inductive Event where
  | stocksPush (campaignId : String) (batch : List StockEntry)
  | pricePush (campaignId : String) (batch : List PriceEntry)
deriving Repr, DecidableEq

/-- Campaign an event targets. -/
def Event.campaign : Event → String
  | .stocksPush c _ => c
  | .pricePush c _ => c

/-- Whether the event is an `update_price` call. -/
def Event.isPricePush : Event → Bool
  | .pricePush _ _ => true
  | .stocksPush _ _ => false

/-- The stock batch an event carries (empty for price pushes). -/
def Event.stockBatch : Event → List StockEntry
  | .stocksPush _ b => b
  | .pricePush _ _ => []

/-- Embedding of `upload_prices` (market.py lines 276-281): builds the price
list and calls `update_price` once per 500-element chunk. The offer-id list
that `get_offer_ids` fetches over HTTP is the parameter `offer_ids`. The
first component is the sequence of submitted batches, in submission order;
the second is the returned `prices` list. -/
def upload_prices (pc : String → Int) (watch_remnants : List WatchRecord)
    (offer_ids : List String) : List (List PriceEntry) × List PriceEntry :=
  let prices := create_prices pc watch_remnants offer_ids
  (divide prices 500, prices)

/-- Embedding of `upload_stocks` (market.py lines 284-292): builds the stock
list and calls `update_stocks` once per 2000-element chunk. The first
component is the sequence of submitted batches; the second is the returned
pair `(not_empty, stocks)`. -/
def upload_stocks (watch_remnants : List WatchRecord) (offer_ids : List String)
    (warehouse_id date : String) :
    Option (List (List StockEntry) × (List StockEntry × List StockEntry)) :=
  match create_stocks watch_remnants offer_ids warehouse_id date with
  | none => none
  | some (stocks, _) =>
    some (divide stocks 2000,
      (stocks.filter (fun stock => stock.items.headI.count != 0), stocks))

/-- The API calls one campaign block of `main` (market.py lines 305-312 for
FBS, 314-321 for DBS) performs: `create_stocks` (whose `ValueError` aborts
the block, `none`), then one `update_stocks` call per 2000-element chunk.
The trailing `upload_prices(...)` expression invokes an `async def` function
without awaiting it, so its body never runs: it performs no `update_price`
call and contributes no event. -/
def campaignEvents (watch_remnants : List WatchRecord) (offers : List String)
    (campaign_id warehouse_id date : String) : Option (List Event) :=
  match create_stocks watch_remnants offers warehouse_id date with
  | none => none
  | some (stocks, _) =>
    some ((divide stocks 2000).map (Event.stocksPush campaign_id))

/-- Embedding of `main` (market.py lines 295-327) as the list of API calls a
failure-free run performs: the FBS campaign block followed by the DBS
campaign block. The offer-id lists fetched for each campaign and the
inventory snapshot from `download_stock()` are parameters. An exception in a
campaign block (caught by the run-wide `except` clauses) ends the run, so a
failing FBS block also suppresses the whole DBS block. -/
def mainEvents (watch_remnants : List WatchRecord)
    (fbs_offers dbs_offers : List String)
    (fbs_id dbs_id warehouse_fbs warehouse_dbs date : String) : List Event :=
  match campaignEvents watch_remnants fbs_offers fbs_id warehouse_fbs date with
  | none => []
  | some fbsEvents =>
    match campaignEvents watch_remnants dbs_offers dbs_id warehouse_dbs date with
    | none => fbsEvents
    | some dbsEvents => fbsEvents ++ dbsEvents

/-- Transport-failure semantics of the single `try`/`except` wrapping both
campaign blocks in `main`: planned events are attempted in order; at the
first event where the transport fails (`F e = true`) the exception jumps to
the handler, and no later event is attempted. Returns the attempted
events. -/
def runEvents (F : Event → Bool) : List Event → List Event
  | [] => []
  | e :: es => if F e then [e] else e :: runEvents F es

/-- Concatenating the chunks of `divideFuel` reproduces the input when the
fuel covers the input length and the chunk size is positive. -/
theorem divideFuel_flatten {α : Type} :
    ∀ (fuel : Nat) (xs : List α) (n : Nat), xs.length ≤ fuel → 0 < n →
      (divideFuel fuel xs n).flatten = xs := by
  intro fuel
  induction fuel with
  | zero =>
    intro xs n hlen _
    cases xs with
    | nil => rfl
    | cons x xs => simp at hlen
  | succ fuel ih =>
    intro xs n hlen hn
    cases xs with
    | nil => rfl
    | cons x xs =>
      cases n with
      | zero => exact absurd hn (by omega)
      | succ m =>
        have hdrop : (xs.drop m).length ≤ fuel := by
          simp only [List.length_drop]
          simp only [List.length_cons] at hlen
          omega
        simp only [divideFuel, List.flatten_cons, Nat.add_sub_cancel,
          ih (xs.drop m) (m + 1) hdrop hn,
          List.take_succ_cons, List.cons_append, List.take_append_drop]

/-- Batcher round trip: concatenating the chunks of `divide` reproduces the
input list, for positive chunk size. -/
theorem divide_flatten {α : Type} (xs : List α) (n : Nat) (hn : 0 < n) :
    (divide xs n).flatten = xs :=
  divideFuel_flatten xs.length xs n le_rfl hn

/-- Every chunk `divideFuel` produces has length at most the chunk size. -/
theorem divideFuel_length_le {α : Type} :
    ∀ (fuel : Nat) (xs : List α) (n : Nat) (b : List α),
      b ∈ divideFuel fuel xs n → b.length ≤ n := by
  intro fuel
  induction fuel with
  | zero =>
    intro xs n b hb
    cases xs <;> simp [divideFuel] at hb
  | succ fuel ih =>
    intro xs n b hb
    cases xs with
    | nil => simp [divideFuel] at hb
    | cons x xs =>
      simp only [divideFuel, List.mem_cons] at hb
      rcases hb with h | h
      · subst h
        simp only [List.length_take]
        omega
      · exact ih _ _ _ h

/-- Batch size bound: every chunk of `divide` has length at most `n`. -/
theorem divide_length_le {α : Type} (xs : List α) (n : Nat) (b : List α)
    (hb : b ∈ divide xs n) : b.length ≤ n :=
  divideFuel_length_le xs.length xs n b hb

/-- The first `create_stocks` loop is the pairing of its matched-entry part
and its leftover working offer-id list. -/
theorem createStocksLoop_parts (date wh : String) :
    ∀ (wr : List WatchRecord) (ids : List String),
      createStocksLoop date wh wr ids =
        (stockMatchedPart date wh wr ids).map (fun es => (es, unmatchedIds wr ids)) := by
  intro wr
  induction wr with
  | nil => intro ids; rfl
  | cons w ws ih =>
    intro ids
    by_cases hc : w.code ∈ ids
    · simp only [createStocksLoop, stockMatchedPart, unmatchedIds, if_pos hc]
      cases hn : normalizeQuantity w.quantity with
      | none => rfl
      | some v =>
        rw [ih (ids.erase w.code)]
        cases hp : stockMatchedPart date wh ws (ids.erase w.code) <;> rfl
    · simp only [createStocksLoop, stockMatchedPart, unmatchedIds, if_neg hc]
      exact ih ids

/-- Expression of `create_stocks` through the matched part and the leftover
ids: output is the matched entries followed by a zero-count entry per
leftover id, and the caller's mutated list ends up as the leftover ids. -/
theorem create_stocks_parts (wr : List WatchRecord) (ids : List String)
    (wh date : String) :
    create_stocks wr ids wh date =
      (stockMatchedPart date wh wr ids).map
        (fun es =>
          (es ++ (unmatchedIds wr ids).map (fun c => mkStockEntry c wh date 0),
            unmatchedIds wr ids)) := by
  unfold create_stocks
  rw [createStocksLoop_parts]
  cases stockMatchedPart date wh wr ids <;> rfl

/-- The leftover working list is a sublist of the supplied offer-id list. -/
theorem unmatchedIds_sublist :
    ∀ (wr : List WatchRecord) (ids : List String),
      (unmatchedIds wr ids).Sublist ids := by
  intro wr
  induction wr with
  | nil => intro ids; exact List.Sublist.refl ids
  | cons w ws ih =>
    intro ids
    by_cases hc : w.code ∈ ids
    · simp only [unmatchedIds, if_pos hc]
      exact (ih (ids.erase w.code)).trans (List.erase_sublist w.code ids)
    · simp only [unmatchedIds, if_neg hc]
      exact ih ids

/-- Membership in the leftover working list, for a duplicate-free supplied
list: exactly the supplied ids no inventory row's code ever equals. -/
theorem unmatchedIds_mem (c : String) :
    ∀ (wr : List WatchRecord) (ids : List String), ids.Nodup →
      (c ∈ unmatchedIds wr ids ↔ c ∈ ids ∧ ∀ w ∈ wr, w.code ≠ c) := by
  intro wr
  induction wr with
  | nil => intro ids _; simp [unmatchedIds]
  | cons w ws ih =>
    intro ids hnd
    by_cases hc : w.code ∈ ids
    · simp only [unmatchedIds, if_pos hc]
      rw [ih (ids.erase w.code) (hnd.erase w.code)]
      constructor
      · rintro ⟨hmem, hall⟩
        rw [hnd.mem_erase_iff] at hmem
        exact ⟨hmem.2, by
          intro w' hw'
          rcases List.mem_cons.mp hw' with h | h
          · subst h; exact fun h => hmem.1 h.symm
          · exact hall w' h⟩
      · rintro ⟨hmem, hall⟩
        have hne : w.code ≠ c := hall w (List.mem_cons_self w ws)
        refine ⟨hnd.mem_erase_iff.mpr ⟨fun h => hne h.symm, hmem⟩, ?_⟩
        intro w' hw'
        exact hall w' (List.mem_cons_of_mem w hw')
    · simp only [unmatchedIds, if_neg hc]
      rw [ih ids hnd]
      constructor
      · rintro ⟨hmem, hall⟩
        refine ⟨hmem, ?_⟩
        intro w' hw'
        rcases List.mem_cons.mp hw' with h | h
        · subst h; exact fun h => hc (h ▸ hmem)
        · exact hall w' h
      · rintro ⟨hmem, hall⟩
        exact ⟨hmem, fun w' hw' => hall w' (List.mem_cons_of_mem w hw')⟩

/-- Loop invariant behind the completeness claim: the skus of the matched
entries together with the leftover ids are a permutation of the supplied
offer-id list. -/
theorem stockMatchedPart_perm (date wh : String) :
    ∀ (wr : List WatchRecord) (ids : List String) (es : List StockEntry),
      stockMatchedPart date wh wr ids = some es →
      (es.map StockEntry.sku ++ unmatchedIds wr ids).Perm ids := by
  intro wr
  induction wr with
  | nil =>
    intro ids es h
    simp only [stockMatchedPart, Option.some.injEq] at h
    subst h
    simp [unmatchedIds]
  | cons w ws ih =>
    intro ids es h
    by_cases hc : w.code ∈ ids
    · simp only [stockMatchedPart, unmatchedIds, if_pos hc] at h ⊢
      cases hn : normalizeQuantity w.quantity with
      | none => rw [hn] at h; exact absurd h (by simp)
      | some v =>
        rw [hn] at h
        cases hp : stockMatchedPart date wh ws (ids.erase w.code) with
        | none => rw [hp] at h; exact absurd h (by simp)
        | some es' =>
          rw [hp] at h
          simp only [Option.some.injEq] at h
          subst h
          simp only [List.map_cons, List.cons_append, mkStockEntry]
          exact ((ih _ _ hp).cons w.code).trans (List.perm_cons_erase hc).symm
    · simp only [stockMatchedPart, unmatchedIds, if_neg hc] at h ⊢
      exact ih _ _ h

/-- Processing a concatenation of inventory rows threads the working list
through the first part. -/
theorem unmatchedIds_append :
    ∀ (l₁ l₂ : List WatchRecord) (ids : List String),
      unmatchedIds (l₁ ++ l₂) ids = unmatchedIds l₂ (unmatchedIds l₁ ids) := by
  intro l₁
  induction l₁ with
  | nil => intro l₂ ids; rfl
  | cons w ws ih =>
    intro l₂ ids
    by_cases hc : w.code ∈ ids
    · simp only [List.cons_append, unmatchedIds, if_pos hc]
      exact ih l₂ (ids.erase w.code)
    · simp only [List.cons_append, unmatchedIds, if_neg hc]
      exact ih l₂ ids

/-- The matched part of a concatenation of inventory rows: the first part's
entries, then the second part's entries computed on the leftover working
list. -/
theorem stockMatchedPart_append (date wh : String) :
    ∀ (l₁ l₂ : List WatchRecord) (ids : List String),
      stockMatchedPart date wh (l₁ ++ l₂) ids =
        (stockMatchedPart date wh l₁ ids).bind
          (fun es₁ =>
            (stockMatchedPart date wh l₂ (unmatchedIds l₁ ids)).map
              (fun es₂ => es₁ ++ es₂)) := by
  intro l₁
  induction l₁ with
  | nil =>
    intro l₂ ids
    simp only [List.nil_append, unmatchedIds]
    cases stockMatchedPart date wh l₂ ids <;> rfl
  | cons w ws ih =>
    intro l₂ ids
    by_cases hc : w.code ∈ ids
    · simp only [List.cons_append, stockMatchedPart, unmatchedIds, if_pos hc]
      cases hn : normalizeQuantity w.quantity with
      | none => rfl
      | some v =>
        simp only [List.append_eq]
        rw [ih l₂ (ids.erase w.code)]
        cases hp : stockMatchedPart date wh ws (ids.erase w.code) <;>
          cases hq : stockMatchedPart date wh l₂ (unmatchedIds ws (ids.erase w.code)) <;>
          simp
    · simp only [List.cons_append, stockMatchedPart, unmatchedIds, if_neg hc]
      exact ih l₂ ids

/-- Values produced by the quantity branch are non-negative as long as the
raw string, when `int(...)` accepts it, denotes a non-negative integer. -/
theorem normalizeQuantity_nonneg (s : String) (v : Int)
    (h : normalizeQuantity s = some v) (hs : 0 ≤ (pyInt s).getD 0) : 0 ≤ v := by
  unfold normalizeQuantity at h
  split_ifs at h with h1 h2
  · simp only [Option.some.injEq] at h
    omega
  · simp only [Option.some.injEq] at h
    omega
  · rw [h] at hs
    simpa using hs

/-- All matched entries carry non-negative counts when no inventory row's
quantity parses to a negative integer. -/
theorem stockMatchedPart_nonneg (date wh : String) :
    ∀ (wr : List WatchRecord) (ids : List String) (es : List StockEntry),
      (∀ w ∈ wr, 0 ≤ (pyInt w.quantity).getD 0) →
      stockMatchedPart date wh wr ids = some es →
      ∀ e ∈ es, ∀ it ∈ e.items, 0 ≤ it.count := by
  intro wr
  induction wr with
  | nil =>
    intro ids es _ h
    simp only [stockMatchedPart, Option.some.injEq] at h
    subst h
    simp
  | cons w ws ih =>
    intro ids es hq h
    by_cases hc : w.code ∈ ids
    · simp only [stockMatchedPart, if_pos hc] at h
      cases hn : normalizeQuantity w.quantity with
      | none => rw [hn] at h; exact absurd h (by simp)
      | some v =>
        rw [hn] at h
        cases hp : stockMatchedPart date wh ws (ids.erase w.code) with
        | none => rw [hp] at h; exact absurd h (by simp)
        | some es' =>
          rw [hp] at h
          simp only [Option.some.injEq] at h
          subst h
          intro e he it hit
          rcases List.mem_cons.mp he with he | he
          · subst he
            simp only [mkStockEntry, List.mem_singleton] at hit
            subst hit
            exact normalizeQuantity_nonneg w.quantity v hn
              (hq w (List.mem_cons_self w ws))
          · exact ih _ _ (fun w' hw' => hq w' (List.mem_cons_of_mem w hw')) hp e he it hit
    · simp only [stockMatchedPart, if_neg hc] at h
      exact ih _ _ (fun w' hw' => hq w' (List.mem_cons_of_mem w hw')) h

/-- C1: for every inventory snapshot and duplicate-free offer-id list, the
multiset of `sku` values in the `create_stocks` output is exactly the
supplied offer-id list — every supplied identifier appears in exactly one
entry, none twice, and no sku outside the supplied list appears. -/
theorem create_stocks_sku_multiset (wr : List WatchRecord) (ids : List String)
    (wh date : String) (out : List StockEntry) (rem : List String)
    (hnd : ids.Nodup) (h : create_stocks wr ids wh date = some (out, rem)) :
    (out.map StockEntry.sku).Perm ids ∧ (out.map StockEntry.sku).Nodup := by
  rw [create_stocks_parts] at h
  cases hp : stockMatchedPart date wh wr ids with
  | none => rw [hp] at h; exact absurd h (by simp)
  | some es =>
    rw [hp] at h
    simp only [Option.map_some', Option.some.injEq, Prod.mk.injEq] at h
    obtain ⟨h1, _⟩ := h
    subst h1
    have hmap :
        ((es ++ (unmatchedIds wr ids).map (fun c => mkStockEntry c wh date 0)).map
          StockEntry.sku) = es.map StockEntry.sku ++ unmatchedIds wr ids := by
      rw [List.map_append, List.map_map]
      have hco : (StockEntry.sku ∘ fun c => mkStockEntry c wh date 0) =
          fun c : String => c := rfl
      rw [hco, List.map_id']
    rw [hmap]
    have hperm := stockMatchedPart_perm date wh wr ids es hp
    exact ⟨hperm, hperm.nodup_iff.mpr hnd⟩

/-- Witness for C1 at a concrete input: one matched record and one
never-matched known offer id. -/
theorem create_stocks_sku_multiset_witness :
    (([mkStockEntry "sku1" "w" "d" 100, mkStockEntry "sku3" "w" "d" 0].map
      StockEntry.sku).Perm ["sku1", "sku3"]) ∧
    ([mkStockEntry "sku1" "w" "d" 100, mkStockEntry "sku3" "w" "d" 0].map
      StockEntry.sku).Nodup :=
  create_stocks_sku_multiset [⟨"sku1", ">10", "p"⟩] ["sku1", "sku3"] "w" "d"
    [mkStockEntry "sku1" "w" "d" 100, mkStockEntry "sku3" "w" "d" 0] ["sku3"]
    (by decide) (by decide)

/-- C2: the quantity branch of `create_stocks` maps the literal `">10"` to
100 and the literal `"1"` to 0; any other string goes to `int(...)`; a
matched record whose quantity `int(...)` rejects makes the whole
`create_stocks` call fail instead of emitting an entry, and an accepted
integer is used as the emitted entry's count. -/
theorem create_stocks_quantity_policy :
    normalizeQuantity ">10" = some 100 ∧
    normalizeQuantity "1" = some 0 ∧
    (∀ s, s ≠ ">10" → s ≠ "1" → normalizeQuantity s = pyInt s) ∧
    (∀ date wh ids ws₁ (w : WatchRecord) ws₂,
      w.code ∈ unmatchedIds ws₁ ids → normalizeQuantity w.quantity = none →
      create_stocks (ws₁ ++ w :: ws₂) ids wh date = none) ∧
    (∀ date wh ids ws₁ (w : WatchRecord) ws₂ v out rem,
      w.code ∈ unmatchedIds ws₁ ids → normalizeQuantity w.quantity = some v →
      create_stocks (ws₁ ++ w :: ws₂) ids wh date = some (out, rem) →
      mkStockEntry w.code wh date v ∈ out) := by
  refine ⟨by decide, by decide, ?_, ?_, ?_⟩
  · intro s h1 h2
    unfold normalizeQuantity
    rw [if_neg h1, if_neg h2]
  · intro date wh ids ws₁ w ws₂ hmem hn
    rw [create_stocks_parts, stockMatchedPart_append]
    cases hp : stockMatchedPart date wh ws₁ ids with
    | none => rfl
    | some es₁ =>
      have hw : stockMatchedPart date wh (w :: ws₂) (unmatchedIds ws₁ ids) = none := by
        simp only [stockMatchedPart, if_pos hmem, hn]
      simp [hw]
  · intro date wh ids ws₁ w ws₂ v out rem hmem hn hsome
    rw [create_stocks_parts, stockMatchedPart_append] at hsome
    cases hp : stockMatchedPart date wh ws₁ ids with
    | none => rw [hp] at hsome; exact absurd hsome (by simp)
    | some es₁ =>
      rw [hp] at hsome
      simp only [stockMatchedPart, if_pos hmem, hn] at hsome
      cases hq : stockMatchedPart date wh ws₂ ((unmatchedIds ws₁ ids).erase w.code) with
      | none => rw [hq] at hsome; exact absurd hsome (by simp)
      | some es₂ =>
        rw [hq] at hsome
        simp only [Option.some_bind, Option.map_some', Option.some.injEq,
          Prod.mk.injEq] at hsome
        obtain ⟨h1, _⟩ := hsome
        subst h1
        simp [List.mem_append, List.mem_cons]

/-- Witness for C2: the generic branch at `"42"`, and a failing call on the
unparseable quantity `"abc"` of a matched record. -/
theorem create_stocks_quantity_policy_witness :
    (normalizeQuantity "42" = pyInt "42" ∧ pyInt "42" = some 42) ∧
    create_stocks [⟨"a", "abc", "p"⟩] ["a"] "w" "d" = none ∧
    mkStockEntry "a" "w" "d" 42 ∈ [mkStockEntry "a" "w" "d" 42] :=
  ⟨⟨create_stocks_quantity_policy.2.2.1 "42" (by decide) (by decide), by decide⟩,
   create_stocks_quantity_policy.2.2.2.1 "d" "w" ["a"] [] ⟨"a", "abc", "p"⟩ []
     (by decide) (by decide),
   create_stocks_quantity_policy.2.2.2.2 "d" "w" ["a"] [] ⟨"a", "42", "p"⟩ [] 42
     [mkStockEntry "a" "w" "d" 42] [] (by decide) (by decide) (by decide)⟩

/-- C5: the `create_stocks` output is the matched entries — one per matched
inventory record, in inventory input order, carrying its normalized count
(`stockMatchedPart`) — followed by one `count = 0` entry per known offer id
that never matched any inventory record. -/
theorem create_stocks_matched_then_unmatched (wr : List WatchRecord)
    (ids : List String) (wh date : String) (out : List StockEntry)
    (rem : List String) (hnd : ids.Nodup)
    (h : create_stocks wr ids wh date = some (out, rem)) :
    ∃ es, stockMatchedPart date wh wr ids = some es ∧
      out = es ++ rem.map (fun c => mkStockEntry c wh date 0) ∧
      (∀ c ∈ rem, c ∈ ids ∧ ∀ w ∈ wr, w.code ≠ c) ∧
      (∀ c ∈ rem, (mkStockEntry c wh date 0).items.map StockItem.count = [0]) := by
  rw [create_stocks_parts] at h
  cases hp : stockMatchedPart date wh wr ids with
  | none => rw [hp] at h; exact absurd h (by simp)
  | some es =>
    rw [hp] at h
    simp only [Option.map_some', Option.some.injEq, Prod.mk.injEq] at h
    obtain ⟨h1, h2⟩ := h
    subst h2
    refine ⟨es, rfl, h1.symm, ?_, ?_⟩
    · intro c hc
      exact (unmatchedIds_mem c wr ids hnd).mp hc
    · intro c _
      rfl

/-- Witness for C5: a matched record, a skipped record, and a never-matched
known offer id. -/
theorem create_stocks_matched_then_unmatched_witness :
    ∃ es,
      stockMatchedPart "d" "w" [⟨"sku1", ">10", "p"⟩, ⟨"sku9", "3", "p"⟩]
        ["sku1", "sku3"] = some es ∧
      [mkStockEntry "sku1" "w" "d" 100, mkStockEntry "sku3" "w" "d" 0] =
        es ++ ["sku3"].map (fun c => mkStockEntry c "w" "d" 0) ∧
      (∀ c ∈ ["sku3"], c ∈ ["sku1", "sku3"] ∧
        ∀ w ∈ [(⟨"sku1", ">10", "p"⟩ : WatchRecord), ⟨"sku9", "3", "p"⟩],
          w.code ≠ c) ∧
      (∀ c ∈ ["sku3"], (mkStockEntry c "w" "d" 0).items.map StockItem.count = [0]) :=
  create_stocks_matched_then_unmatched
    [⟨"sku1", ">10", "p"⟩, ⟨"sku9", "3", "p"⟩] ["sku1", "sku3"] "w" "d"
    [mkStockEntry "sku1" "w" "d" 100, mkStockEntry "sku3" "w" "d" 0] ["sku3"]
    (by decide) (by decide)

/-- C3 (code-bug evidence): even on an input where the price list is
nonempty, the API-call trace of a failure-free `main` run consists of stock
pushes only — `main` invokes the async `upload_prices` without awaiting it,
so no `update_price` call is ever performed. -/
theorem main_price_push_never_performed :
    create_prices (fun _ => 1500) [⟨"sku1", "5", "1500"⟩] ["sku1"] ≠ [] ∧
    mainEvents [⟨"sku1", "5", "1500"⟩] ["sku1"] ["sku1"] "fbs" "dbs" "wf" "wd" "d" =
      [Event.stocksPush "fbs" [mkStockEntry "sku1" "wf" "d" 5],
       Event.stocksPush "dbs" [mkStockEntry "sku1" "wd" "d" 5]] ∧
    (∀ e ∈ mainEvents [⟨"sku1", "5", "1500"⟩] ["sku1"] ["sku1"]
        "fbs" "dbs" "wf" "wd" "d", e.isPricePush = false) :=
  ⟨by decide, by decide, by decide⟩

/-- C4 (code-bug evidence): the planned trace of a run contains a DBS-side
push, but when the transport fails at the first FBS push, the single
`try`/`except` wrapping both campaign blocks in `main` aborts the run and no
DBS-side call is ever attempted. -/
theorem main_transport_failure_skips_other_campaign :
    (∃ e ∈ mainEvents [⟨"sku1", "5", "1500"⟩] ["sku1"] ["sku2"]
        "fbs" "dbs" "wf" "wd" "d", e.campaign = "dbs") ∧
    (∀ e ∈ runEvents (fun e => e.campaign == "fbs")
        (mainEvents [⟨"sku1", "5", "1500"⟩] ["sku1"] ["sku2"]
          "fbs" "dbs" "wf" "wd" "d"), e.campaign ≠ "dbs") :=
  ⟨by decide, by decide⟩

/-- C6: a later inventory record whose code already matched an earlier
record has no effect on `create_stocks` at all — no entry is emitted for it,
no error can arise from it, and the first occurrence's count stands. -/
theorem create_stocks_duplicate_code_skipped (ws₁ : List WatchRecord)
    (w : WatchRecord) (ws₂ : List WatchRecord) (ids : List String)
    (wh date : String) (hnd : ids.Nodup) (_hc : w.code ∈ ids)
    (hdup : ∃ w' ∈ ws₁, w'.code = w.code) :
    create_stocks (ws₁ ++ w :: ws₂) ids wh date =
      create_stocks (ws₁ ++ ws₂) ids wh date := by
  have hnot : w.code ∉ unmatchedIds ws₁ ids := by
    rw [unmatchedIds_mem w.code ws₁ ids hnd]
    rintro ⟨_, hall⟩
    obtain ⟨w', hw', hcode⟩ := hdup
    exact hall w' hw' hcode
  rw [create_stocks_parts, create_stocks_parts, stockMatchedPart_append,
    stockMatchedPart_append, unmatchedIds_append, unmatchedIds_append]
  simp only [stockMatchedPart, unmatchedIds, if_neg hnot]

/-- Witness for C6: the second record with code "a" is dropped without
overriding the count 5 of the first. -/
theorem create_stocks_duplicate_code_skipped_witness :
    create_stocks [⟨"a", "5", "p"⟩, ⟨"a", "7", "p"⟩] ["a"] "w" "d" =
      create_stocks [⟨"a", "5", "p"⟩] ["a"] "w" "d" :=
  create_stocks_duplicate_code_skipped [⟨"a", "5", "p"⟩] ⟨"a", "7", "p"⟩ []
    ["a"] "w" "d" (by decide) (by decide) ⟨⟨"a", "5", "p"⟩, by decide, rfl⟩

/-- C7: `create_prices` emits exactly one entry — id equal to the record's
code, integer value from the price conversion, currency fixed to "RUR" — per
inventory record whose code is in the offer-id list, in input order, and
never emits an entry for a record whose code is absent from that list. -/
theorem create_prices_spec (pc : String → Int) (wr : List WatchRecord)
    (ids : List String) :
    create_prices pc wr ids =
      (wr.filter (fun w => decide (w.code ∈ ids))).map (mkPriceEntry pc) ∧
    ∀ e ∈ create_prices pc wr ids,
      e.price.currencyId = "RUR" ∧
      ∃ w ∈ wr, w.code ∈ ids ∧ e.id = w.code ∧ e.price.value = pc w.price := by
  have hfil : create_prices pc wr ids =
      (wr.filter (fun w => decide (w.code ∈ ids))).map (mkPriceEntry pc) := by
    induction wr with
    | nil => rfl
    | cons w ws ih =>
      by_cases hc : w.code ∈ ids
      · simp [create_prices, List.filter_cons, hc, ih]
      · simp [create_prices, List.filter_cons, hc, ih]
  refine ⟨hfil, ?_⟩
  intro e he
  rw [hfil] at he
  simp only [List.mem_map, List.mem_filter, decide_eq_true_eq] at he
  obtain ⟨w, ⟨hw, hcid⟩, rfl⟩ := he
  exact ⟨rfl, w, hw, hcid, rfl, rfl⟩

/-- Witness for C7: sku2 is excluded (unknown offer), sku1 gets one entry
with currency "RUR". -/
theorem create_prices_spec_witness :
    create_prices (fun _ => 1500) [⟨"sku1", "q", "1500"⟩, ⟨"sku2", "q", "2000"⟩]
      ["sku1", "sku3"] = [⟨"sku1", ⟨1500, "RUR"⟩⟩] ∧
    (⟨"sku1", ⟨1500, "RUR"⟩⟩ : PriceEntry).price.currencyId = "RUR" :=
  ⟨(create_prices_spec (fun _ => 1500)
      [⟨"sku1", "q", "1500"⟩, ⟨"sku2", "q", "2000"⟩] ["sku1", "sku3"]).1.trans
      (by decide),
   ((create_prices_spec (fun _ => 1500)
      [⟨"sku1", "q", "1500"⟩, ⟨"sku2", "q", "2000"⟩] ["sku1", "sku3"]).2
      ⟨"sku1", ⟨1500, "RUR"⟩⟩ (by decide)).1⟩

/-- C8 counterexample: the quantity string "-5" is accepted by `int(...)`
for a matched record, and the emitted entry carries the negative count -5 —
refuting "every accepted count is non-negative". -/
theorem create_stocks_negative_count_cex :
    create_stocks [⟨"a", "-5", "p"⟩] ["a"] "w" "d" =
      some ([mkStockEntry "a" "w" "d" (-5)], []) ∧
    ((-5 : Int) < 0) :=
  ⟨by decide, by decide⟩

/-- C8 amended: every count emitted by `create_stocks` is non-negative
provided no inventory row's quantity string parses to a negative integer;
the sentinel branches (100 and 0) and the zero-fill entries are always
non-negative. -/
theorem create_stocks_counts_nonneg (wr : List WatchRecord) (ids : List String)
    (wh date : String) (out : List StockEntry) (rem : List String)
    (hq : ∀ w ∈ wr, 0 ≤ (pyInt w.quantity).getD 0)
    (h : create_stocks wr ids wh date = some (out, rem)) :
    ∀ e ∈ out, ∀ it ∈ e.items, 0 ≤ it.count := by
  rw [create_stocks_parts] at h
  cases hp : stockMatchedPart date wh wr ids with
  | none => rw [hp] at h; exact absurd h (by simp)
  | some es =>
    rw [hp] at h
    simp only [Option.map_some', Option.some.injEq, Prod.mk.injEq] at h
    obtain ⟨h1, _⟩ := h
    subst h1
    intro e he it hit
    rcases List.mem_append.mp he with he | he
    · exact stockMatchedPart_nonneg date wh wr ids es hq hp e he it hit
    · obtain ⟨c, _, rfl⟩ := List.mem_map.mp he
      simp only [mkStockEntry, List.mem_singleton] at hit
      subst hit
      exact le_refl (0 : Int)

/-- Witness for C8 amended: a matched count 5 and a zero-fill count are both
non-negative. -/
theorem create_stocks_counts_nonneg_witness :
    0 ≤ (StockItem.mk 5 "FIT" "d").count :=
  create_stocks_counts_nonneg [⟨"a", "5", "p"⟩] ["a", "b"] "w" "d"
    [mkStockEntry "a" "w" "d" 5, mkStockEntry "b" "w" "d" 0] ["b"]
    (by decide) (by decide) (mkStockEntry "a" "w" "d" 5) (by decide)
    (StockItem.mk 5 "FIT" "d") (by decide)

/-- C9: assuming the Batcher contract (here `divide`, modelled from the
spec), `upload_prices` submits the price list in chunks of at most 500,
`upload_stocks` and the stock loops of `main` (via `campaignEvents`) submit
the stock list in chunks of at most 2000, and concatenating the submitted
batches in order reproduces the full reconciled list. -/
theorem batch_upload_bounds :
    (∀ (pc : String → Int) (wr : List WatchRecord) (ids : List String),
      (upload_prices pc wr ids).1.flatten = create_prices pc wr ids ∧
      ∀ b ∈ (upload_prices pc wr ids).1, b.length ≤ 500) ∧
    (∀ (wr : List WatchRecord) (ids : List String) (wh date : String)
        (batches : List (List StockEntry))
        (res : List StockEntry × List StockEntry),
      upload_stocks wr ids wh date = some (batches, res) →
      batches.flatten = res.2 ∧ ∀ b ∈ batches, b.length ≤ 2000) ∧
    (∀ (wr : List WatchRecord) (offers : List String) (cid wh date : String)
        (evs : List Event),
      campaignEvents wr offers cid wh date = some evs →
      ∃ stocks rem, create_stocks wr offers wh date = some (stocks, rem) ∧
        (evs.map Event.stockBatch).flatten = stocks ∧
        ∀ e ∈ evs, (Event.stockBatch e).length ≤ 2000) := by
  refine ⟨?_, ?_, ?_⟩
  · intro pc wr ids
    exact ⟨divide_flatten (create_prices pc wr ids) 500 (by omega),
      fun b hb => divide_length_le _ 500 b hb⟩
  · intro wr ids wh date batches res h
    unfold upload_stocks at h
    cases hc : create_stocks wr ids wh date with
    | none => rw [hc] at h; exact absurd h (by simp)
    | some p =>
      obtain ⟨stocks, rem⟩ := p
      rw [hc] at h
      simp only [Option.some.injEq, Prod.mk.injEq] at h
      obtain ⟨h1, h2⟩ := h
      subst h1
      subst h2
      exact ⟨divide_flatten stocks 2000 (by omega),
        fun b hb => divide_length_le _ 2000 b hb⟩
  · intro wr offers cid wh date evs h
    unfold campaignEvents at h
    cases hc : create_stocks wr offers wh date with
    | none => rw [hc] at h; exact absurd h (by simp)
    | some p =>
      obtain ⟨stocks, rem⟩ := p
      rw [hc] at h
      simp only [Option.some.injEq] at h
      subst h
      refine ⟨stocks, rem, rfl, ?_, ?_⟩
      · rw [List.map_map]
        have hco : (Event.stockBatch ∘ Event.stocksPush cid) =
            fun b : List StockEntry => b := rfl
        rw [hco, List.map_id']
        exact divide_flatten stocks 2000 (by omega)
      · intro e he
        obtain ⟨b, hb, rfl⟩ := List.mem_map.mp he
        exact divide_length_le _ 2000 b hb

/-- Witness for C9 at concrete inputs: a one-record price upload, a
one-record stock upload, and a one-record campaign block of `main`. -/
theorem batch_upload_bounds_witness :
    (upload_prices (fun _ => 1500) [⟨"sku1", "5", "1500"⟩] ["sku1"]).1.flatten =
      create_prices (fun _ => 1500) [⟨"sku1", "5", "1500"⟩] ["sku1"] ∧
    ([[mkStockEntry "sku1" "w" "d" 5]] : List (List StockEntry)).flatten =
      (([mkStockEntry "sku1" "w" "d" 5], [mkStockEntry "sku1" "w" "d" 5]) :
        List StockEntry × List StockEntry).2 ∧
    ∃ stocks rem,
      create_stocks [(⟨"sku1", "5", "1500"⟩ : WatchRecord)] ["sku1"] "w" "d" =
        some (stocks, rem) ∧
      (([Event.stocksPush "c" [mkStockEntry "sku1" "w" "d" 5]]).map
        Event.stockBatch).flatten = stocks ∧
      ∀ e ∈ [Event.stocksPush "c" [mkStockEntry "sku1" "w" "d" 5]],
        (Event.stockBatch e).length ≤ 2000 :=
  ⟨(batch_upload_bounds.1 (fun _ => 1500) [⟨"sku1", "5", "1500"⟩] ["sku1"]).1,
   (batch_upload_bounds.2.1 [⟨"sku1", "5", "1500"⟩] ["sku1"] "w" "d"
      [[mkStockEntry "sku1" "w" "d" 5]]
      ([mkStockEntry "sku1" "w" "d" 5], [mkStockEntry "sku1" "w" "d" 5])
      (by decide)).1,
   batch_upload_bounds.2.2 [⟨"sku1", "5", "1500"⟩] ["sku1"] "c" "w" "d"
      [Event.stocksPush "c" [mkStockEntry "sku1" "w" "d" 5]] (by decide)⟩

/-- C10 counterexample: a record with sentinel quantity "1" matches, is
emitted with count 0, and is removed from the caller's collection — so the
post-call collection is not "precisely the identifiers emitted with
count = 0". -/
theorem create_stocks_mutation_cex :
    create_stocks [⟨"a", "1", "p"⟩] ["a"] "w" "d" =
      some ([mkStockEntry "a" "w" "d" 0], []) ∧
    (mkStockEntry "a" "w" "d" 0).items.map StockItem.count = [0] ∧
    "a" ∉ ([] : List String) :=
  ⟨by decide, by decide, by decide⟩

/-- C10 amended: after `create_stocks`, the caller's offer-id collection
holds exactly the supplied identifiers that matched no inventory record —
each of those is emitted with count 0 — and every identifier that matched a
record has been removed (a matched identifier can also be emitted with
count 0, when its quantity is the sentinel "1"). -/
theorem create_stocks_mutates_offer_ids (wr : List WatchRecord)
    (ids : List String) (wh date : String) (out : List StockEntry)
    (rem : List String) (hnd : ids.Nodup)
    (h : create_stocks wr ids wh date = some (out, rem)) :
    (∀ c, c ∈ rem ↔ c ∈ ids ∧ ∀ w ∈ wr, w.code ≠ c) ∧
    (∀ c ∈ rem, mkStockEntry c wh date 0 ∈ out) := by
  rw [create_stocks_parts] at h
  cases hp : stockMatchedPart date wh wr ids with
  | none => rw [hp] at h; exact absurd h (by simp)
  | some es =>
    rw [hp] at h
    simp only [Option.map_some', Option.some.injEq, Prod.mk.injEq] at h
    obtain ⟨h1, h2⟩ := h
    subst h2
    constructor
    · intro c
      exact unmatchedIds_mem c wr ids hnd
    · intro c hc
      rw [← h1]
      exact List.mem_append_right es (List.mem_map.mpr ⟨c, hc, rfl⟩)

/-- Witness for C10 amended: "sku3" is left in the collection and emitted
with count 0; "sku1" (matched) is removed. -/
theorem create_stocks_mutates_offer_ids_witness :
    ("sku3" ∈ ["sku3"] ↔ "sku3" ∈ ["sku1", "sku3"] ∧
      ∀ w ∈ [(⟨"sku1", "5", "p"⟩ : WatchRecord)], w.code ≠ "sku3") ∧
    mkStockEntry "sku3" "w" "d" 0 ∈
      [mkStockEntry "sku1" "w" "d" 5, mkStockEntry "sku3" "w" "d" 0] :=
  ⟨(create_stocks_mutates_offer_ids [⟨"sku1", "5", "p"⟩] ["sku1", "sku3"] "w" "d"
      [mkStockEntry "sku1" "w" "d" 5, mkStockEntry "sku3" "w" "d" 0] ["sku3"]
      (by decide) (by decide)).1 "sku3",
   (create_stocks_mutates_offer_ids [⟨"sku1", "5", "p"⟩] ["sku1", "sku3"] "w" "d"
      [mkStockEntry "sku1" "w" "d" 5, mkStockEntry "sku3" "w" "d" 0] ["sku3"]
      (by decide) (by decide)).2 "sku3" (by decide)⟩

end Market
